import Mathlib

/-!
# Verification of the pi-web-browse session-orchestration layer

This file gives a shallow embedding, in Lean 4, of the pure logic of the
`pi-web-browse` repository (a headless-browser web-search / page-fetch skill)
and proves properties of it.

Conventions used throughout:
* JavaScript strings are modelled as `List Char` (`Str` below).  JS string
  indices/lengths are UTF-16 code units; we model them as character indices,
  which agrees for the ASCII data all of these functions manipulate.
* `async` functions whose effectful sub-steps (network requests, browser
  navigation, DOM reads) are external collaborators are modelled as pure
  functions taking the outcome of each collaborator call as an explicit
  argument (`Except Str α` for a call that can reject, i.e. throw).
* HTML/DOM parsing (cheerio, jsdom, Readability, Turndown) is an external
  collaborator per the specification; the source code consumes parsed items
  (selected elements, extracted text), so the embedding takes those items as
  inputs and models everything the repository code itself does with them.
-/

/-- JavaScript strings, modelled as lists of characters. -/
abbrev Str := List Char

/-- An apostrophe character (used inside marker strings). -/
def aposC : Char := Char.ofNat 39

/-- Lower-casing of a string, as JS `String.prototype.toLowerCase` does
character-wise (ASCII range; the marker data is all ASCII). -/
def strLower (s : Str) : Str := s.map Char.toLower

/-- JS `s.includes(pat)`: `pat` occurs as a contiguous substring of `s`.
`"".includes("")` is `true`. -/
def strHas : Str → Str → Bool
  | [], pat => pat.isEmpty
  | c :: rest, pat => pat.isPrefixOf (c :: rest) || strHas rest pat

/-- JS `String.prototype.trim`, removing leading and trailing whitespace. -/
def jsTrim (s : Str) : Str :=
  ((s.dropWhile Char.isWhitespace).reverse.dropWhile Char.isWhitespace).reverse

/-- `strHas s pat` holds exactly when `s` decomposes around `pat`. -/
theorem strHas_iff (s pat : Str) :
    strHas s pat = true ↔ ∃ pre suf, s = pre ++ pat ++ suf := by
  induction s with
  | nil =>
    simp only [strHas, List.isEmpty_iff]
    constructor
    · rintro rfl
      exact ⟨[], [], rfl⟩
    · rintro ⟨pre, suf, h⟩
      rcases List.append_eq_nil.mp (List.append_eq_nil.mp h.symm).1 with ⟨-, h2⟩
      exact h2
  | cons c rest ih =>
    simp only [strHas, Bool.or_eq_true, List.isPrefixOf_iff_prefix]
    constructor
    · rintro (⟨t, ht⟩ | h)
      · exact ⟨[], t, by simpa using ht.symm⟩
      · obtain ⟨pre, suf, rfl⟩ := ih.mp h
        exact ⟨c :: pre, suf, rfl⟩
    · rintro ⟨pre, suf, h⟩
      cases pre with
      | nil => exact Or.inl ⟨suf, by simpa using h.symm⟩
      | cons p ps =>
        refine Or.inr (ih.mpr ⟨ps, suf, ?_⟩)
        have h2 : c = p ∧ rest = ps ++ (pat ++ suf) := by simpa using h
        simpa using h2.2

/-- A substring of the left part is a substring of the concatenation. -/
theorem strHas_append_left (a b pat : Str) (h : strHas a pat = true) :
    strHas (a ++ b) pat = true := by
  obtain ⟨pre, suf, rfl⟩ := (strHas_iff a pat).mp h
  exact (strHas_iff _ pat).mpr ⟨pre, suf ++ b, by simp⟩

/-- A substring of the right part is a substring of the concatenation. -/
theorem strHas_append_right (a b pat : Str) (h : strHas b pat = true) :
    strHas (a ++ b) pat = true := by
  obtain ⟨pre, suf, rfl⟩ := (strHas_iff b pat).mp h
  exact (strHas_iff _ pat).mpr ⟨a ++ pre, suf, by simp⟩

/-!
## Bot-protection text classifier — `src/lib/bot-protection.js`
-/

/-- The fixed marker list `DEFAULT_MARKERS` of `src/lib/bot-protection.js`
(lines 1–12), verbatim. -/
def DEFAULT_MARKERS : List Str :=
  [ "making sure you".toList ++ aposC :: "re not a bot".toList
  , "protected by anubis".toList
  , "anubis uses a proof-of-work".toList
  , "checking your browser".toList
  , "just a moment".toList
  , "cf-browser-verification".toList
  , "enable javascript and cookies to continue".toList
  , "attention required".toList
  , "verify you are human".toList
  , "unusual traffic".toList ]

/-- `isLikelyBotProtectionText` of `src/lib/bot-protection.js` (lines 14–19),
instantiated at its default marker list: lower-cases the title and the first
6000 characters of the text, joins them with a newline, and tests each marker
for substring presence. -/
def isLikelyBotProtectionText (title text : Str) : Bool :=
  DEFAULT_MARKERS.any
    (fun m => strHas (strLower title ++ '\n' :: strLower (List.take 6000 text)) m)

/-- The matching predicate exactly as the claim words it (for comparison with
the source function): marker presence in "the lower-cased concatenation of the
title and the first 6000 characters of the text" — with no separator between
the two parts. -/
def claimConcatMatch (title text : Str) : Bool :=
  DEFAULT_MARKERS.any (fun m => strHas (strLower (title ++ List.take 6000 text)) m)

/-- **C4** (counterexample).  The claim states that the classifier returns
true *iff* the lower-cased concatenation of the title and the first 6000
characters of the text contains a marker.  The source joins the two parts
with a newline (`src/lib/bot-protection.js` line 17), so a marker that
straddles the title/text boundary matches the claim's concatenation but not
the code's haystack: with title `"just a "` and text `"moment"` the plain
concatenation contains the marker `"just a moment"`, yet the function
returns `false`. -/
theorem isLikelyBotProtectionText_concat_claim_false :
    claimConcatMatch "just a ".toList "moment".toList = true ∧
    isLikelyBotProtectionText "just a ".toList "moment".toList = false := by
  constructor
  · decide
  · decide

/-- **C4** (amended).  `isLikelyBotProtectionText` returns true iff the
lower-cased title and lower-cased first 6000 characters of the text, joined
by a newline, contain at least one marker of the fixed list as a substring;
in particular a marker contained (case-insensitively) entirely in the title
or entirely in the first 6000 characters of the text makes it return true,
and text containing no marker yields false. -/
theorem isLikelyBotProtectionText_marker_iff (title text : Str) :
    (isLikelyBotProtectionText title text = true ↔
      ∃ m, m ∈ DEFAULT_MARKERS ∧
        strHas (strLower title ++ '\n' :: strLower (List.take 6000 text)) m = true)
    ∧ (∀ m, m ∈ DEFAULT_MARKERS →
        strHas (strLower title) m = true ∨ strHas (strLower (List.take 6000 text)) m = true →
        isLikelyBotProtectionText title text = true) := by
  constructor
  · simp only [isLikelyBotProtectionText, List.any_eq_true]
  · intro m hm h
    have key : strHas (strLower title ++ '\n' :: strLower (List.take 6000 text)) m = true := by
      rcases h with h | h
      · exact strHas_append_left _ _ _ h
      · have : strLower title ++ '\n' :: strLower (List.take 6000 text)
            = (strLower title ++ ['\n']) ++ strLower (List.take 6000 text) := by simp
        rw [this]
        exact strHas_append_right _ _ _ h
    simp only [isLikelyBotProtectionText, List.any_eq_true]
    exact ⟨m, hm, key⟩

/-- Witness for `isLikelyBotProtectionText_marker_iff`: a title containing
`"Verify You Are HUMAN"` (mixed case) is classified as bot protection. -/
theorem isLikelyBotProtectionText_marker_iff_witness :
    isLikelyBotProtectionText "Verify You Are HUMAN".toList "page body".toList = true :=
  (isLikelyBotProtectionText_marker_iff "Verify You Are HUMAN".toList "page body".toList).2
    "verify you are human".toList (by decide) (Or.inl (by decide))

/-!
## Bot-protection page detector — `src/lib/bot-protection.js` lines 21–42

`isLikelyBotProtectionPage` performs up to 3 `page.evaluate` reads.  The
embedding takes the outcome of the `i`-th read as `reads i` (`.ok b` = the
in-page classification returned `b`; `.error msg` = the read threw `msg`) and
returns the classification result together with the number of reads actually
performed.  The 250ms pause between context-teardown retries is timing-only
and not modelled.
-/

/-- The error-message test of `src/lib/bot-protection.js` line 32: only
messages indicating the page's script context was torn down are retried. -/
def isCtxErr (msg : Str) : Bool :=
  strHas msg "Execution context was destroyed".toList ||
  strHas msg "Cannot find context".toList

/-- The retry loop body of `isLikelyBotProtectionPage` (lines 22–39):
`attempt` is the current loop index, the second argument the number of loop
iterations left (3 at the top-level call). -/
def botPageGo (reads : Nat → Except Str Bool) : Nat → Nat → Bool × Nat
  | attempt, 0 => (false, attempt)
  | attempt, fuel + 1 =>
    match reads attempt with
    | Except.ok b => (b, attempt + 1)
    | Except.error msg =>
      if isCtxErr msg then botPageGo reads (attempt + 1) fuel
      else (false, attempt + 1)

/-- `isLikelyBotProtectionPage` of `src/lib/bot-protection.js` (lines 21–42):
result of the classification, paired with how many `evaluate` reads ran. -/
def isLikelyBotProtectionPage (reads : Nat → Except Str Bool) : Bool × Nat :=
  botPageGo reads 0 3

/-- **C5** (counterexample).  The claim states that whenever a detection read
throws, the read is retried up to 3 times and the failure is surfaced (as
`false`) only after those retries are exhausted.  The source retries only
errors whose message indicates script-context teardown
(`src/lib/bot-protection.js` lines 32–37); any other error returns `false`
immediately: with every read throwing `"boom"`, the function returns `false`
after a single read, not after three. -/
theorem isLikelyBotProtectionPage_retry_claim_false :
    isLikelyBotProtectionPage (fun _ => Except.error "boom".toList) = (false, 1) ∧
    ((false, 1) : Bool × Nat) ≠ (false, 3) := by
  constructor
  · rfl
  · decide

/-- **C5** (amended).  Detection-read failures always fail open (`false` is
returned, never an exception), but only script-context-teardown errors
(`"Execution context was destroyed"` / `"Cannot find context"`) are retried,
up to 3 reads in total; any other error surfaces `false` immediately after
the read that threw it.  Concretely: (1) if all three reads throw teardown
errors, the result is `false` after exactly 3 reads; (2) if the reads throw
teardown errors until read `k` throws a non-teardown error, the result is
`false` after exactly `k+1` reads; (3) if the reads throw teardown errors
until read `k` succeeds with `b`, the result is `b` after `k+1` reads. -/
theorem isLikelyBotProtectionPage_fail_open (reads : Nat → Except Str Bool) :
    ((∀ i, i < 3 → ∃ msg, reads i = Except.error msg ∧ isCtxErr msg = true) →
      isLikelyBotProtectionPage reads = (false, 3))
    ∧ (∀ k msg, k < 3 →
        (∀ i, i < k → ∃ m, reads i = Except.error m ∧ isCtxErr m = true) →
        reads k = Except.error msg → isCtxErr msg = false →
        isLikelyBotProtectionPage reads = (false, k + 1))
    ∧ (∀ k b, k < 3 →
        (∀ i, i < k → ∃ m, reads i = Except.error m ∧ isCtxErr m = true) →
        reads k = Except.ok b →
        isLikelyBotProtectionPage reads = (b, k + 1)) := by
  refine ⟨?_, ?_, ?_⟩
  · intro h
    obtain ⟨m0, h0, c0⟩ := h 0 (by omega)
    obtain ⟨m1, h1, c1⟩ := h 1 (by omega)
    obtain ⟨m2, h2, c2⟩ := h 2 (by omega)
    simp [isLikelyBotProtectionPage, botPageGo, h0, c0, h1, c1, h2, c2]
  · intro k msg hk hpre hr hc
    interval_cases k
    · simp [isLikelyBotProtectionPage, botPageGo, hr, hc]
    · obtain ⟨m0, h0, c0⟩ := hpre 0 (by omega)
      simp [isLikelyBotProtectionPage, botPageGo, h0, c0, hr, hc]
    · obtain ⟨m0, h0, c0⟩ := hpre 0 (by omega)
      obtain ⟨m1, h1, c1⟩ := hpre 1 (by omega)
      simp [isLikelyBotProtectionPage, botPageGo, h0, c0, h1, c1, hr, hc]
  · intro k b hk hpre hr
    interval_cases k
    · simp [isLikelyBotProtectionPage, botPageGo, hr]
    · obtain ⟨m0, h0, c0⟩ := hpre 0 (by omega)
      simp [isLikelyBotProtectionPage, botPageGo, h0, c0, hr]
    · obtain ⟨m0, h0, c0⟩ := hpre 0 (by omega)
      obtain ⟨m1, h1, c1⟩ := hpre 1 (by omega)
      simp [isLikelyBotProtectionPage, botPageGo, h0, c0, h1, c1, hr]

/-- Witness for `isLikelyBotProtectionPage_fail_open`: with every read
throwing a context-teardown error, all 3 reads run and the page is classified
as not blocked. -/
theorem isLikelyBotProtectionPage_fail_open_witness :
    isLikelyBotProtectionPage
      (fun _ => Except.error "Execution context was destroyed".toList) = (false, 3) :=
  (isLikelyBotProtectionPage_fail_open
      (fun _ => Except.error "Execution context was destroyed".toList)).1
    (fun i _ => ⟨"Execution context was destroyed".toList, rfl, by decide⟩)

/-!
## Content truncation — `src/lib/extract.js` lines 43–52

`parseHtmlToContent` delegates HTML→markdown conversion to external
collaborators (jsdom/Readability/Turndown); the repository-owned part is the
trim and the truncation policy applied to the converted content string, which
is embedded here as `renderContent`.
-/

/-- The string appended after a cut (`src/lib/extract.js` lines 48 and 50). -/
def truncNotice : Str :=
  "\n\n[... truncated, use --full for complete content ...]".toList

/-- Does this suffix begin with a paragraph break (`"\n\n"`)? -/
def brk : Str → Bool
  | '\n' :: '\n' :: _ => true
  | _ => false

/-- A paragraph break starts at offset `i` of `s`. -/
def brkAt (s : Str) (i : Nat) : Prop := brk (List.drop i s) = true

/-- Single left-to-right scan behind `lastBreakLE`: `i` is the offset of the
current suffix, `best` the last qualifying offset seen so far. -/
def lastBrkAux (f : Nat) : Str → Nat → Option Nat → Option Nat
  | [], _, best => best
  | c :: rest, i, best =>
    lastBrkAux f rest (i + 1) (if brk (c :: rest) = true ∧ i ≤ f then some i else best)

/-- JS `s.lastIndexOf("\n\n", f)`: the largest offset `≤ f` at which a
paragraph break starts, or `none` (JS `-1`) if there is none. -/
def lastBreakLE (s : Str) (f : Nat) : Option Nat := lastBrkAux f s 0 none

/-- The truncation policy of `parseHtmlToContent`
(`src/lib/extract.js` lines 45–52), applied to the trimmed content. -/
def applyTruncation (fc : Str) (truncate : Bool) : Str :=
  if truncate = true ∧ 2000 < fc.length then
    match lastBreakLE fc 2000 with
    | some cut =>
      if 1000 < cut then List.take cut fc ++ truncNotice
      else List.take 2000 fc ++ truncNotice
    | none => List.take 2000 fc ++ truncNotice
  else fc

/-- The content produced by `parseHtmlToContent` (`src/lib/extract.js`
lines 43–52) from the converted markdown string: trim, then truncation. -/
def renderContent (content : Str) (truncate : Bool) : Str :=
  applyTruncation (jsTrim content) truncate

/-- Scanning with a qualifying `best` already in hand yields a result at
least as large. -/
theorem lastBrkAux_some_ge (s : Str) (f : Nat) :
    ∀ i b, b ≤ i → ∃ m, lastBrkAux f s i (some b) = some m ∧ b ≤ m := by
  induction s with
  | nil => exact fun i b hb => ⟨b, rfl, le_refl b⟩
  | cons c rest ih =>
    intro i b hb
    simp only [lastBrkAux]
    by_cases hc : brk (c :: rest) = true ∧ i ≤ f
    · simp only [if_pos hc]
      obtain ⟨m, hm, him⟩ := ih (i + 1) i (by omega)
      exact ⟨m, hm, by omega⟩
    · simp only [if_neg hc]
      exact ih (i + 1) b (by omega)

/-- Soundness of the scan: a returned offset is the initial `best` or a
genuine paragraph-break offset within the bound. -/
theorem lastBrkAux_sound (s : Str) (f : Nat) :
    ∀ i best m, lastBrkAux f s i best = some m →
      best = some m ∨ (i ≤ m ∧ m ≤ f ∧ brk (List.drop (m - i) s) = true) := by
  induction s with
  | nil => exact fun i best m h => Or.inl h
  | cons c rest ih =>
    intro i best m h
    simp only [lastBrkAux] at h
    rcases ih (i + 1) _ m h with h2 | ⟨h1, h2, h3⟩
    · by_cases hc : brk (c :: rest) = true ∧ i ≤ f
      · rw [if_pos hc] at h2
        have hmi : m = i := by simpa using h2.symm
        subst hmi
        exact Or.inr ⟨le_refl m, hc.2, by simpa using hc.1⟩
      · rw [if_neg hc] at h2
        exact Or.inl h2
    · refine Or.inr ⟨by omega, h2, ?_⟩
      have hd : m - i = (m - (i + 1)) + 1 := by omega
      rw [hd, List.drop_succ_cons]
      exact h3

/-- Completeness of the scan: any paragraph break within the bound forces a
result at least as large as its offset. -/
theorem lastBrkAux_complete (s : Str) (f : Nat) :
    ∀ i best j, i ≤ j → j ≤ f → brk (List.drop (j - i) s) = true →
      ∃ m, lastBrkAux f s i best = some m ∧ j ≤ m := by
  induction s with
  | nil =>
    intro i best j _ _ hb
    simp [brk] at hb
  | cons c rest ih =>
    intro i best j hij hjf hb
    simp only [lastBrkAux]
    rcases Nat.eq_or_lt_of_le hij with rfl | hlt
    · have hone : brk (c :: rest) = true := by simpa using hb
      rw [if_pos ⟨hone, hjf⟩]
      obtain ⟨m, hm, him⟩ := lastBrkAux_some_ge rest f (i + 1) i (by omega)
      exact ⟨m, hm, him⟩
    · have hd : j - i = (j - (i + 1)) + 1 := by omega
      rw [hd, List.drop_succ_cons] at hb
      exact ih (i + 1) _ j (by omega) hjf hb

/-- Branch equation: over-long content with a found break offset. -/
theorem applyTruncation_eq_of_some (fc : Str) (h : 2000 < fc.length) (m : Nat)
    (hEq : lastBreakLE fc 2000 = some m) :
    applyTruncation fc true =
      if 1000 < m then List.take m fc ++ truncNotice
      else List.take 2000 fc ++ truncNotice := by
  unfold applyTruncation
  rw [if_pos ⟨rfl, h⟩, hEq]

/-- Branch equation: over-long content with no break offset found. -/
theorem applyTruncation_eq_of_none (fc : Str) (h : 2000 < fc.length)
    (hEq : lastBreakLE fc 2000 = none) :
    applyTruncation fc true = List.take 2000 fc ++ truncNotice := by
  unfold applyTruncation
  rw [if_pos ⟨rfl, h⟩, hEq]

/-- **C3** (amended).  `parseHtmlToContent` trims the converted content;
then, with `truncate` true and trimmed content longer than 2000 characters,
it cuts at the last paragraph break at or before offset 2000 when that break
lies past offset 1000, and hard-cuts at exactly 2000 otherwise (no break in
`(1000, 2000]`), appending the fixed truncation notice after the cut.
Trimmed content of length at most 2000 is returned unmodified (no notice
appended), and with `truncate` false the trimmed content is returned
verbatim — never cut, with no notice appended (though content that itself
already embeds the notice text is also returned verbatim). -/
theorem renderContent_truncation_policy (content : Str) (truncate : Bool) :
    (truncate = false → renderContent content truncate = jsTrim content)
    ∧ ((jsTrim content).length ≤ 2000 → renderContent content truncate = jsTrim content)
    ∧ (truncate = true → 2000 < (jsTrim content).length →
        ∃ cut, renderContent content truncate
            = List.take cut (jsTrim content) ++ truncNotice
          ∧ ((1000 < cut ∧ cut ≤ 2000 ∧ brkAt (jsTrim content) cut ∧
                ∀ j, cut < j → j ≤ 2000 → ¬ brkAt (jsTrim content) j)
             ∨ (cut = 2000 ∧ ∀ j, 1000 < j → j ≤ 2000 → ¬ brkAt (jsTrim content) j))) := by
  refine ⟨?_, ?_, ?_⟩
  · intro h
    subst h
    simp [renderContent, applyTruncation]
  · intro h
    have : ¬ (truncate = true ∧ 2000 < (jsTrim content).length) := by
      rintro ⟨-, h2⟩; omega
    simp [renderContent, applyTruncation, this]
  · intro ht hlen
    subst ht
    cases hEq : lastBreakLE (jsTrim content) 2000 with
    | none =>
      refine ⟨2000, ?_, Or.inr ⟨rfl, ?_⟩⟩
      · exact applyTruncation_eq_of_none (jsTrim content) hlen hEq
      · intro j hj1 hj2 hb
        obtain ⟨m', hm', -⟩ := lastBrkAux_complete (jsTrim content) 2000 0 none j
          (by omega) hj2 (by simpa [brkAt] using hb)
        rw [show lastBrkAux 2000 (jsTrim content) 0 none = lastBreakLE (jsTrim content) 2000
          from rfl, hEq] at hm'
        cases hm'
    | some m =>
      have hs := lastBrkAux_sound (jsTrim content) 2000 0 none m
        (by simpa [lastBreakLE] using hEq)
      rcases hs with hnone | ⟨-, hm2000, hbrk⟩
      · cases hnone
      have hmax : ∀ j, m < j → j ≤ 2000 → ¬ brkAt (jsTrim content) j := by
        intro j hj1 hj2 hb
        obtain ⟨m', hm', hjm'⟩ := lastBrkAux_complete (jsTrim content) 2000 0 none j
          (by omega) hj2 (by simpa [brkAt] using hb)
        rw [show lastBrkAux 2000 (jsTrim content) 0 none = lastBreakLE (jsTrim content) 2000
          from rfl, hEq] at hm'
        have : m' = m := by simpa using hm'.symm
        omega
      rw [renderContent, applyTruncation_eq_of_some (jsTrim content) hlen m hEq]
      by_cases hc : 1000 < m
      · rw [if_pos hc]
        exact ⟨m, rfl, Or.inl ⟨hc, hm2000, by simpa [brkAt] using hbrk, hmax⟩⟩
      · rw [if_neg hc]
        refine ⟨2000, rfl, Or.inr ⟨rfl, ?_⟩⟩
        intro j hj1 hj2 hb
        exact hmax j (by omega) hj2 hb

/-- Converted content that happens to quote the truncation notice (e.g. a
page whose code block contains it verbatim). -/
def noticeQuotingContent : Str :=
  "see ".toList ++ truncNotice ++ " end".toList

/-- **C3** (counterexample).  The claim states that with `truncate` false the
content "never contains the marker".  The function returns untruncated
content verbatim (`src/lib/extract.js` line 52 falls through), so content
that already embeds the truncation notice is returned containing it: a
~60-character input quoting the notice comes back unchanged and contains the
marker even though `truncate` is false. -/
theorem renderContent_notice_containment_claim_false :
    renderContent noticeQuotingContent false = noticeQuotingContent ∧
    strHas (renderContent noticeQuotingContent false) truncNotice = true := by
  constructor
  · decide
  · decide

/-- Content of length 2102 with its last paragraph break at offset 1500. -/
def longSampleContent : Str :=
  List.replicate 1500 'a' ++ '\n' :: '\n' :: List.replicate 600 'b'

/-- The long sample has no leading or trailing whitespace, so trimming is the
identity on it. -/
theorem longSampleContent_trim : jsTrim longSampleContent = longSampleContent := by
  have h1 : List.dropWhile Char.isWhitespace longSampleContent = longSampleContent := by
    rw [longSampleContent, show (1500 : Nat) = 1499 + 1 from rfl, List.replicate_succ,
      List.cons_append, List.dropWhile_cons, if_neg (by decide)]
  have hrev : longSampleContent.reverse
      = List.replicate 600 'b' ++ '\n' :: '\n' :: List.replicate 1500 'a' := by
    rw [longSampleContent,
      show ('\n' :: '\n' :: List.replicate 600 'b') = ['\n', '\n'] ++ List.replicate 600 'b'
        from rfl,
      List.reverse_append, List.reverse_append, List.reverse_replicate,
      List.reverse_replicate, List.append_assoc]
    rfl
  have h2 : List.dropWhile Char.isWhitespace longSampleContent.reverse
      = longSampleContent.reverse := by
    rw [hrev, show (600 : Nat) = 599 + 1 from rfl, List.replicate_succ,
      List.cons_append, List.dropWhile_cons, if_neg (by decide)]
  rw [jsTrim, h1, h2, List.reverse_reverse]

/-- The trimmed long sample has 2102 characters. -/
theorem longSampleContent_len : (jsTrim longSampleContent).length = 2102 := by
  rw [longSampleContent_trim, longSampleContent, List.length_append, List.length_cons,
    List.length_cons, List.length_replicate, List.length_replicate]

/-- Witness for `renderContent_truncation_policy`: short content passed
through unmodified under `truncate = true`, and 2102-character content
cut at a paragraph break with the notice appended. -/
theorem renderContent_truncation_policy_witness :
    (renderContent "short page".toList true = jsTrim "short page".toList)
    ∧ (∃ cut, renderContent longSampleContent true
          = List.take cut (jsTrim longSampleContent) ++ truncNotice
        ∧ ((1000 < cut ∧ cut ≤ 2000 ∧ brkAt (jsTrim longSampleContent) cut ∧
              ∀ j, cut < j → j ≤ 2000 → ¬ brkAt (jsTrim longSampleContent) j)
           ∨ (cut = 2000 ∧ ∀ j, 1000 < j → j ≤ 2000 →
                ¬ brkAt (jsTrim longSampleContent) j))) :=
  ⟨(renderContent_truncation_policy "short page".toList true).2.1 (by decide),
   (renderContent_truncation_policy longSampleContent true).2.2 rfl
     (by rw [longSampleContent_len]; norm_num)⟩

/-!
## Search chain — `src/lib/search.js`

The DuckDuckGo extraction functions run over the elements selected by the
cheerio collaborator; each selected element is modelled as a `RawItem`
carrying the already-extracted text of the title element, the raw `href`
attribute (`none` for a missing attribute) and the snippet text.  HTTP
responses carry their status data and the items parsed from their body.
-/

/-- One search hit `{title, link, snippet}`. -/
structure SearchResult where
  title : Str
  link : Str
  snippet : Str
deriving DecidableEq

/-- One listing element as selected by cheerio: title text, raw `href`
attribute (`none` when absent), snippet text. -/
structure RawItem where
  title : Str
  href : Option Str
  snippet : Str
deriving DecidableEq

/-- An HTTP search response: status data plus the listing items the
collaborator parses out of its body markup. -/
structure HttpResp where
  status : Int
  ok : Bool
  statusText : Str
  items : List RawItem
deriving DecidableEq

/-- Hexadecimal digit value, or `none`. -/
def hexVal (c : Char) : Option Nat :=
  if '0' ≤ c ∧ c ≤ '9' then some (c.toNat - '0'.toNat)
  else if 'a' ≤ c ∧ c ≤ 'f' then some (c.toNat - 'a'.toNat + 10)
  else if 'A' ≤ c ∧ c ≤ 'F' then some (c.toNat - 'A'.toNat + 10)
  else none

/-- JS `decodeURIComponent`, for the single-byte (ASCII) escapes the
redirect-wrapper links use: `%XY` becomes the character with code `0xXY`,
other characters pass through.  (JS additionally decodes multi-byte UTF-8
escape runs and throws `URIError` on malformed escapes; the links these
claims concern are ASCII and well-formed.) -/
def pctDecode : Str → Str
  | [] => []
  | '%' :: h :: l :: rest =>
    match hexVal h, hexVal l with
    | some a, some b => Char.ofNat (16 * a + b) :: pctDecode rest
    | _, _ => '%' :: pctDecode (h :: l :: rest)
  | c :: rest => c :: pctDecode rest

/-- The capture of the first match of the regex `uddg=([^&]+)` in `href`
(`src/lib/search.js` line 19): scanning left to right, the first position
where `"uddg="` is followed by at least one non-`&` character yields the
maximal run of non-`&` characters after the `=`. -/
def findUddg : Str → Option Str
  | [] => none
  | c :: rest =>
    if "uddg=".toList.isPrefixOf (c :: rest)
        ∧ List.takeWhile (fun ch => ch ≠ '&') (List.drop 5 (c :: rest)) ≠ [] then
      some (List.takeWhile (fun ch => ch ≠ '&') (List.drop 5 (c :: rest)))
    else findUddg rest

/-- Link resolution of `extractDuckDuckGoResults`
(`src/lib/search.js` lines 17–21): an `href` containing `"uddg="` whose
regex capture succeeds is percent-decoded; anything else is kept verbatim. -/
def resolveLink (href : Str) : Str :=
  if strHas href "uddg=".toList then
    match findUddg href with
    | some cap => pctDecode cap
    | none => href
  else href

/-- The `.result` iteration of `extractDuckDuckGoResults`
(`src/lib/search.js` lines 7–26): stops once `num` results are collected,
trims title/snippet text, resolves the link, and keeps an item only when
title and link are truthy and the link does not point back at
`duckduckgo.com`. -/
def extractLoop (num : Int) : List RawItem → List SearchResult → List SearchResult
  | [], acc => acc
  | item :: rest, acc =>
    if num ≤ (acc.length : Int) then acc
    else
      match item.href with
      | none => extractLoop num rest acc
      | some href =>
        let title := jsTrim item.title
        let link := resolveLink href
        if title ≠ [] ∧ link ≠ [] ∧ strHas link "duckduckgo.com".toList = false then
          extractLoop num rest (acc ++ [⟨title, link, jsTrim item.snippet⟩])
        else extractLoop num rest acc

/-- `extractDuckDuckGoResults` of `src/lib/search.js` (lines 3–29), over the
items cheerio selects from the full-markup listing. -/
def extractDuckDuckGoResults (items : List RawItem) (num : Int) : List SearchResult :=
  extractLoop num items []

/-- The `a.result-link` iteration of `searchDuckDuckGoLite`
(`src/lib/search.js` lines 41–50): stops at `num` results, trims title and
snippet, and keeps the raw `href` verbatim when title and link are truthy —
no redirect unwrapping, no own-domain exclusion. -/
def liteLoop (num : Int) : List RawItem → List SearchResult → List SearchResult
  | [], acc => acc
  | item :: rest, acc =>
    if num ≤ (acc.length : Int) then acc
    else
      match item.href with
      | none => liteLoop num rest acc
      | some link =>
        let title := jsTrim item.title
        if title ≠ [] ∧ link ≠ [] then
          liteLoop num rest (acc ++ [⟨title, link, jsTrim item.snippet⟩])
        else liteLoop num rest acc

/-- `searchDuckDuckGoLite` of `src/lib/search.js` (lines 31–53): throws on a
202 (blocked) status or a non-ok response, otherwise extracts up to `num`
lightweight-markup results.  `resp` is the outcome of the `httpFetch` call. -/
def searchDuckDuckGoLite (resp : Except Str HttpResp) (num : Int) :
    Except Str (List SearchResult) :=
  match resp with
  | Except.error e => Except.error e
  | Except.ok r =>
    if r.status = 202 then Except.error "DuckDuckGo returned 202 (blocked)".toList
    else if r.ok = false then
      Except.error ("Search failed: ".toList ++ (toString r.status).toList
        ++ ' ' :: r.statusText)
    else Except.ok (liteLoop num r.items [])

/-- `searchDuckDuckGo` of `src/lib/search.js` (lines 55–69): throws on a 202
(blocked) status or a non-ok response of the full-markup endpoint, extracts
its results, and falls back to the lightweight endpoint when extraction
yields zero results. -/
def searchDuckDuckGo (resp liteResp : Except Str HttpResp) (num : Int) :
    Except Str (List SearchResult) :=
  match resp with
  | Except.error e => Except.error e
  | Except.ok r =>
    if r.status = 202 then Except.error "DuckDuckGo returned 202 (blocked)".toList
    else if r.ok = false then
      Except.error ("Search failed: ".toList ++ (toString r.status).toList
        ++ ' ' :: r.statusText)
    else
      let results := extractDuckDuckGoResults r.items num
      if results.isEmpty then searchDuckDuckGoLite liteResp num
      else Except.ok results

/-- The diagnostics `searchGoogleFromContext` reads off a zero-result page
(`src/lib/search.js` lines 167–174): captcha markup present, and the page's
visible text. -/
structure GoogleDiag where
  hasCaptcha : Bool
  text : Str

/-- The blocking phrases of `src/lib/search.js` line 176. -/
def blockedSignals : List Str :=
  [ "unusual traffic".toList
  , "before you continue".toList
  , "sorry".toList
  , "detected".toList
  , "our systems".toList ]

/-- `searchGoogleFromContext` of `src/lib/search.js` (lines 71–193).  `nav`
is the outcome of the navigation/consent phase (`some e` = a rejection `e`
anywhere before extraction, e.g. a `goto` timeout); `frames` gives, per
frame, either the items its `evaluate` extracted or the error that made the
extraction be ignored; `diag` is the zero-result diagnostics snapshot.  The
count is clamped to `[1, 20]`, a zero-result page with blocking signals
throws, and the collected results are capped at the clamped count. -/
def searchGoogleFromContext (nav : Option Str)
    (frames : List (Except Str (List SearchResult))) (diag : GoogleDiag)
    (num : Int) : Except Str (List SearchResult) :=
  match nav with
  | some e => Except.error e
  | none =>
    let clampedNum : Int := max 1 (min num 20)
    let results := frames.foldl
      (fun acc f => match f with | Except.ok rs => acc ++ rs | Except.error _ => acc) []
    if results.isEmpty then
      if diag.hasCaptcha
          || blockedSignals.any (fun s => strHas (strLower diag.text) s) then
        Except.error "Google blocked automated access".toList
      else Except.ok []
    else Except.ok (results.take clampedNum.toNat)

/-- The DuckDuckGo fallback as invoked inside `searchWebFromContext`
(`src/lib/search.js` lines 215–223): a thrown error is logged and leaves the
result list empty. -/
def ddgRecover (d : Except Str (List SearchResult)) : List SearchResult :=
  match d with
  | Except.ok rs => rs
  | Except.error _ => []

/-- `searchWebFromContext` of `src/lib/search.js` (lines 198–226): Google
first, its failure caught; on failure or zero results the DuckDuckGo chain,
its failure caught; the surviving list (possibly empty) is returned.  The
`Except` result type records that the function itself never rejects. -/
def searchWebFromContext (nav : Option Str)
    (frames : List (Except Str (List SearchResult))) (diag : GoogleDiag)
    (ddgResp liteResp : Except Str HttpResp) (num : Int) :
    Except Str (List SearchResult) :=
  let results := match searchGoogleFromContext nav frames diag num with
    | Except.ok rs => rs
    | Except.error _ => []
  if results.isEmpty then Except.ok (ddgRecover (searchDuckDuckGo ddgResp liteResp num))
  else Except.ok results

/-- **C1** (confirmed).  The search orchestrator never rejects: it always
returns an `ok` list; when the primary engine throws (including its
blocked-access error), the caught error leads to the DuckDuckGo chain being
attempted and its caught outcome returned; and when both the primary engine
and the secondary chain throw, the result is the empty list as a valid,
non-error outcome. -/
theorem searchWebFromContext_never_throws (nav : Option Str)
    (frames : List (Except Str (List SearchResult))) (diag : GoogleDiag)
    (ddgResp liteResp : Except Str HttpResp) (num : Int) :
    (∃ rs, searchWebFromContext nav frames diag ddgResp liteResp num = Except.ok rs)
    ∧ (∀ e, searchGoogleFromContext nav frames diag num = Except.error e →
        searchWebFromContext nav frames diag ddgResp liteResp num
          = Except.ok (ddgRecover (searchDuckDuckGo ddgResp liteResp num)))
    ∧ (∀ e1 e2, searchGoogleFromContext nav frames diag num = Except.error e1 →
        searchDuckDuckGo ddgResp liteResp num = Except.error e2 →
        searchWebFromContext nav frames diag ddgResp liteResp num = Except.ok []) := by
  refine ⟨?_, ?_, ?_⟩
  · unfold searchWebFromContext
    cases hg : searchGoogleFromContext nav frames diag num with
    | error e => exact ⟨ddgRecover (searchDuckDuckGo ddgResp liteResp num), by simp⟩
    | ok rs =>
      by_cases he : rs.isEmpty
      · exact ⟨ddgRecover (searchDuckDuckGo ddgResp liteResp num), by simp [he]⟩
      · exact ⟨rs, by simp [he]⟩
  · intro e hg
    unfold searchWebFromContext
    rw [hg]
    simp
  · intro e1 e2 hg hd
    unfold searchWebFromContext
    rw [hg]
    simp [hd, ddgRecover]

/-- Witness for `searchWebFromContext_never_throws`: Google blocked (captcha
diagnostics on a zero-result page) and DuckDuckGo blocked (202), and the
orchestrator still returns an ok empty list. -/
theorem searchWebFromContext_never_throws_witness :
    searchWebFromContext none [] ⟨true, []⟩
      (Except.ok ⟨202, false, "Accepted".toList, []⟩)
      (Except.ok ⟨202, false, "Accepted".toList, []⟩) 5 = Except.ok [] :=
  (searchWebFromContext_never_throws none [] ⟨true, []⟩
      (Except.ok ⟨202, false, "Accepted".toList, []⟩)
      (Except.ok ⟨202, false, "Accepted".toList, []⟩) 5).2.2
    "Google blocked automated access".toList
    "DuckDuckGo returned 202 (blocked)".toList rfl rfl

/-- The full-markup extraction loop never collects more than `num` results
(given it starts within the cap). -/
theorem extractLoop_length_le (num : Int) (items : List RawItem) :
    ∀ acc : List SearchResult, acc.length ≤ num.toNat →
      (extractLoop num items acc).length ≤ num.toNat := by
  induction items with
  | nil => intro acc h; exact h
  | cons item rest ih =>
    intro acc h
    unfold extractLoop
    by_cases hc : num ≤ (acc.length : Int)
    · rw [if_pos hc]; exact h
    · rw [if_neg hc]
      have hlt : acc.length + 1 ≤ num.toNat := by omega
      cases item.href with
      | none => exact ih acc h
      | some href =>
        by_cases hp : jsTrim item.title ≠ [] ∧ resolveLink href ≠ []
            ∧ strHas (resolveLink href) "duckduckgo.com".toList = false
        · simp only [if_pos hp]
          exact ih _ (by simpa using hlt)
        · simp only [if_neg hp]
          exact ih acc h

/-- The lightweight-markup extraction loop never collects more than `num`
results (given it starts within the cap). -/
theorem liteLoop_length_le (num : Int) (items : List RawItem) :
    ∀ acc : List SearchResult, acc.length ≤ num.toNat →
      (liteLoop num items acc).length ≤ num.toNat := by
  induction items with
  | nil => intro acc h; exact h
  | cons item rest ih =>
    intro acc h
    unfold liteLoop
    by_cases hc : num ≤ (acc.length : Int)
    · rw [if_pos hc]; exact h
    · rw [if_neg hc]
      have hlt : acc.length + 1 ≤ num.toNat := by omega
      cases item.href with
      | none => exact ih acc h
      | some link =>
        by_cases hp : jsTrim item.title ≠ [] ∧ link ≠ []
        · simp only [if_pos hp]
          exact ih _ (by simpa using hlt)
        · simp only [if_neg hp]
          exact ih acc h

/-- **C6** (amended).  The primary-engine path clamps the requested count to
`[1, 20]` and its result list never exceeds the clamped count; the
secondary-engine paths cap their lists by the *raw* requested count with no
clamping; consequently, for requested counts within `[1, 20]` no path of the
chain returns more than the clamped count — but a request above 20 can be
exceeded only in the sense that the fallback paths honour it unclamped (see
the counterexample). -/
theorem search_chain_count_caps (nav : Option Str)
    (frames : List (Except Str (List SearchResult))) (diag : GoogleDiag)
    (ddgResp liteResp : Except Str HttpResp) (num : Int) :
    (∀ rs, searchGoogleFromContext nav frames diag num = Except.ok rs →
        (rs.length : Int) ≤ max 1 (min num 20))
    ∧ (∀ rs, searchDuckDuckGo ddgResp liteResp num = Except.ok rs →
        (rs.length : Int) ≤ max num 0)
    ∧ (1 ≤ num → num ≤ 20 →
        ∀ rs, searchWebFromContext nav frames diag ddgResp liteResp num = Except.ok rs →
        (rs.length : Int) ≤ max 1 (min num 20)) := by
  have hclamp1 : (1 : Int) ≤ max 1 (min num 20) := le_max_left _ _
  have hgoogle : ∀ rs, searchGoogleFromContext nav frames diag num = Except.ok rs →
      (rs.length : Int) ≤ max 1 (min num 20) := by
    intro rs hg
    unfold searchGoogleFromContext at hg
    cases nav with
    | some e => cases hg
    | none =>
      simp only [] at hg
      by_cases he :
        (frames.foldl
          (fun acc f => match f with | Except.ok rs => acc ++ rs | Except.error _ => acc)
          ([] : List SearchResult)).isEmpty
      · rw [if_pos he] at hg
        by_cases hb : (diag.hasCaptcha
            || blockedSignals.any (fun s => strHas (strLower diag.text) s)) = true
        · rw [if_pos hb] at hg; cases hg
        · rw [if_neg hb] at hg
          have : rs = [] := by cases hg; rfl
          subst this
          simpa using le_trans zero_le_one hclamp1
      · rw [if_neg he] at hg
        have : rs = (frames.foldl
            (fun acc f => match f with | Except.ok rs => acc ++ rs | Except.error _ => acc)
            ([] : List SearchResult)).take (max 1 (min num 20)).toNat := by
          cases hg; rfl
        subst this
        have hlen := List.length_take_le (max 1 (min num 20)).toNat
          (frames.foldl
            (fun acc f => match f with | Except.ok rs => acc ++ rs | Except.error _ => acc)
            ([] : List SearchResult))
        have hnn : (0 : Int) ≤ max 1 (min num 20) := le_trans zero_le_one hclamp1
        omega
  have hddg : ∀ rs, searchDuckDuckGo ddgResp liteResp num = Except.ok rs →
      (rs.length : Int) ≤ max num 0 := by
    intro rs hd
    unfold searchDuckDuckGo at hd
    cases ddgResp with
    | error e => cases hd
    | ok r =>
      simp only [] at hd
      by_cases h202 : r.status = 202
      · rw [if_pos h202] at hd; cases hd
      · rw [if_neg h202] at hd
        by_cases hok : r.ok = false
        · rw [if_pos hok] at hd; cases hd
        · rw [if_neg hok] at hd
          by_cases he : (extractDuckDuckGoResults r.items num).isEmpty
          · rw [if_pos he] at hd
            unfold searchDuckDuckGoLite at hd
            cases liteResp with
            | error e => cases hd
            | ok r2 =>
              simp only [] at hd
              by_cases h202b : r2.status = 202
              · rw [if_pos h202b] at hd; cases hd
              · rw [if_neg h202b] at hd
                by_cases hokb : r2.ok = false
                · rw [if_pos hokb] at hd; cases hd
                · rw [if_neg hokb] at hd
                  have : rs = liteLoop num r2.items [] := by cases hd; rfl
                  subst this
                  have := liteLoop_length_le num r2.items [] (by simp)
                  omega
          · rw [if_neg he] at hd
            have : rs = extractDuckDuckGoResults r.items num := by cases hd; rfl
            subst this
            have := extractLoop_length_le num r.items [] (by simp)
            unfold extractDuckDuckGoResults
            omega
  refine ⟨hgoogle, hddg, ?_⟩
  intro h1 h20 rs hw
  have hclampeq : max 1 (min num 20) = num := by
    rw [min_eq_left h20, max_eq_right h1]
  unfold searchWebFromContext at hw
  cases hg : searchGoogleFromContext nav frames diag num with
  | error e =>
    rw [hg] at hw
    simp only [List.isEmpty_nil, if_pos rfl] at hw
    have : rs = ddgRecover (searchDuckDuckGo ddgResp liteResp num) := by cases hw; rfl
    subst this
    cases hd : searchDuckDuckGo ddgResp liteResp num with
    | error e2 =>
      simp only [ddgRecover]
      simpa using le_trans zero_le_one hclamp1
    | ok rs2 =>
      simp only [ddgRecover]
      have := hddg rs2 hd
      rw [hclampeq]
      omega
  | ok rsg =>
    rw [hg] at hw
    by_cases he : rsg.isEmpty
    · rw [if_pos he] at hw
      have : rs = ddgRecover (searchDuckDuckGo ddgResp liteResp num) := by cases hw; rfl
      subst this
      cases hd : searchDuckDuckGo ddgResp liteResp num with
      | error e2 =>
        simp only [ddgRecover]
        simpa using le_trans zero_le_one hclamp1
      | ok rs2 =>
        simp only [ddgRecover]
        have := hddg rs2 hd
        rw [hclampeq]
        omega
    · rw [if_neg he] at hw
      have hrg : rs = rsg := by cases hw; rfl
      rw [hrg]
      exact hgoogle rsg hg

/-- A valid external-link listing item. -/
def sampleItem : RawItem :=
  ⟨"Example".toList, some "https://example.org/a".toList, "s".toList⟩

/-- A full-markup DuckDuckGo response whose body lists 21 valid items. -/
def resp21 : HttpResp := ⟨200, true, "OK".toList, List.replicate 21 sampleItem⟩

/-- An empty successful response. -/
def respEmpty : HttpResp := ⟨200, true, "OK".toList, []⟩

/-- **C6** (counterexample).  The claim states the requested count is
clamped to `[1, 20]` and no path returns more than the clamped count.  Only
the primary-engine path clamps (`src/lib/search.js` line 72); the fallback
paths cap at the raw requested count (lines 8, 42), so a request for 21
results against a fallback page listing 21 items returns 21 results —
exceeding the clamped count of 20. -/
theorem search_chain_count_claim_false :
    ((searchWebFromContext (some "goto timeout".toList) [] ⟨false, []⟩
        (Except.ok resp21) (Except.ok respEmpty) 21).toOption.getD []).length = 21 ∧
    ¬ ((21 : Int) ≤ max 1 (min 21 20)) := by
  constructor
  · decide
  · decide

/-- Witness for `search_chain_count_caps`: an in-range request (3 results)
through a failing primary engine and a fallback returning a single result
stays within the clamped count. -/
theorem search_chain_count_caps_witness :
    ((([⟨"Example".toList, "https://example.org/a".toList, "s".toList⟩] :
        List SearchResult).length : Int)) ≤ max 1 (min 3 20) :=
  (search_chain_count_caps (some "goto timeout".toList) [] ⟨false, []⟩
      (Except.ok ⟨200, true, "OK".toList, [sampleItem]⟩) (Except.ok respEmpty) 3).2.2
    (by norm_num) (by norm_num)
    [⟨"Example".toList, "https://example.org/a".toList, "s".toList⟩] rfl

/-- A successful regex capture implies the `href` contains `"uddg="`. -/
theorem findUddg_some_strHas (href : Str) (cap : Str) (h : findUddg href = some cap) :
    strHas href "uddg=".toList = true := by
  induction href with
  | nil => cases h
  | cons c rest ih =>
    unfold findUddg at h
    by_cases hc : "uddg=".toList.isPrefixOf (c :: rest)
        ∧ List.takeWhile (fun ch => ch ≠ '&') (List.drop 5 (c :: rest)) ≠ []
    · rw [if_pos hc] at h
      unfold strHas
      rw [hc.1]
      rfl
    · rw [if_neg hc] at h
      unfold strHas
      rw [ih h]
      simp

/-- A wrapped link with a successful capture resolves to the decoded
capture. -/
theorem resolveLink_of_findUddg (href cap : Str) (h : findUddg href = some cap) :
    resolveLink href = pctDecode cap := by
  unfold resolveLink
  rw [findUddg_some_strHas href cap h, if_pos rfl, h]

/-- A direct link (no `"uddg="`) is kept verbatim. -/
theorem resolveLink_of_direct (href : Str) (h : strHas href "uddg=".toList = false) :
    resolveLink href = href := by
  unfold resolveLink
  rw [h]
  simp

/-- Every result collected by the full-markup loop either was already in the
accumulator or stems from an input item: its link is the item's resolved
`href` and does not point at `duckduckgo.com`. -/
theorem extractLoop_mem (num : Int) :
    ∀ (items : List RawItem) (acc : List SearchResult) (r : SearchResult),
      r ∈ extractLoop num items acc → r ∈ acc ∨
        ∃ it, it ∈ items ∧ ∃ h, it.href = some h ∧ r.link = resolveLink h ∧
          strHas r.link "duckduckgo.com".toList = false := by
  intro items
  induction items with
  | nil => intro acc r hr; exact Or.inl hr
  | cons item rest ih =>
    intro acc r hr
    unfold extractLoop at hr
    by_cases hc : num ≤ (acc.length : Int)
    · rw [if_pos hc] at hr; exact Or.inl hr
    · rw [if_neg hc] at hr
      cases hhref : item.href with
      | none =>
        rw [hhref] at hr
        rcases ih acc r hr with h | ⟨it, hit, rest_h⟩
        · exact Or.inl h
        · exact Or.inr ⟨it, List.mem_cons_of_mem _ hit, rest_h⟩
      | some href =>
        rw [hhref] at hr
        by_cases hp : jsTrim item.title ≠ [] ∧ resolveLink href ≠ []
            ∧ strHas (resolveLink href) "duckduckgo.com".toList = false
        · simp only [if_pos hp] at hr
          rcases ih _ r hr with h | ⟨it, hit, rest_h⟩
          · rcases List.mem_append.mp h with h | h
            · exact Or.inl h
            · have : r = ⟨jsTrim item.title, resolveLink href, jsTrim item.snippet⟩ := by
                simpa using h
              subst this
              exact Or.inr ⟨item, List.mem_cons_self _ _, href, hhref, rfl, hp.2.2⟩
          · exact Or.inr ⟨it, List.mem_cons_of_mem _ hit, rest_h⟩
        · simp only [if_neg hp] at hr
          rcases ih acc r hr with h | ⟨it, hit, rest_h⟩
          · exact Or.inl h
          · exact Or.inr ⟨it, List.mem_cons_of_mem _ hit, rest_h⟩

/-- Every result collected by the lightweight-markup loop either was already
in the accumulator or carries some input item's `href` verbatim. -/
theorem liteLoop_mem (num : Int) :
    ∀ (items : List RawItem) (acc : List SearchResult) (r : SearchResult),
      r ∈ liteLoop num items acc → r ∈ acc ∨
        ∃ it, it ∈ items ∧ it.href = some r.link := by
  intro items
  induction items with
  | nil => intro acc r hr; exact Or.inl hr
  | cons item rest ih =>
    intro acc r hr
    unfold liteLoop at hr
    by_cases hc : num ≤ (acc.length : Int)
    · rw [if_pos hc] at hr; exact Or.inl hr
    · rw [if_neg hc] at hr
      cases hhref : item.href with
      | none =>
        rw [hhref] at hr
        rcases ih acc r hr with h | ⟨it, hit, rest_h⟩
        · exact Or.inl h
        · exact Or.inr ⟨it, List.mem_cons_of_mem _ hit, rest_h⟩
      | some link =>
        rw [hhref] at hr
        by_cases hp : jsTrim item.title ≠ [] ∧ link ≠ []
        · simp only [if_pos hp] at hr
          rcases ih _ r hr with h | ⟨it, hit, rest_h⟩
          · rcases List.mem_append.mp h with h | h
            · exact Or.inl h
            · have : r = ⟨jsTrim item.title, link, jsTrim item.snippet⟩ := by
                simpa using h
              subst this
              exact Or.inr ⟨item, List.mem_cons_self _ _, hhref⟩
          · exact Or.inr ⟨it, List.mem_cons_of_mem _ hit, rest_h⟩
        · simp only [if_neg hp] at hr
          rcases ih acc r hr with h | ⟨it, hit, rest_h⟩
          · exact Or.inl h
          · exact Or.inr ⟨it, List.mem_cons_of_mem _ hit, rest_h⟩

/-- **C7** (amended).  On the full-markup path, a redirect-wrapper `href`
(successful `uddg=` capture) is decoded to its true destination, a direct
link is kept verbatim, and every returned result's link avoids
`duckduckgo.com`.  The lightweight-markup path does *not* share this
contract: it returns each item's raw `href` verbatim — no unwrapping and no
own-domain exclusion (see the counterexample). -/
theorem ddg_extraction_contract (items : List RawItem) (num : Int) :
    (∀ href cap, findUddg href = some cap → resolveLink href = pctDecode cap)
    ∧ (∀ href, strHas href "uddg=".toList = false → resolveLink href = href)
    ∧ (∀ r, r ∈ extractDuckDuckGoResults items num →
        ∃ it, it ∈ items ∧ ∃ h, it.href = some h ∧ r.link = resolveLink h ∧
          strHas r.link "duckduckgo.com".toList = false)
    ∧ (∀ resp rs, searchDuckDuckGoLite (Except.ok resp) num = Except.ok rs →
        ∀ r, r ∈ rs → ∃ it, it ∈ resp.items ∧ it.href = some r.link) := by
  refine ⟨resolveLink_of_findUddg, resolveLink_of_direct, ?_, ?_⟩
  · intro r hr
    rcases extractLoop_mem num items [] r hr with h | h
    · cases h
    · exact h
  · intro resp rs hrs r hr
    unfold searchDuckDuckGoLite at hrs
    simp only [] at hrs
    by_cases h202 : resp.status = 202
    · rw [if_pos h202] at hrs; cases hrs
    · rw [if_neg h202] at hrs
      by_cases hok : resp.ok = false
      · rw [if_pos hok] at hrs; cases hrs
      · rw [if_neg hok] at hrs
        have : rs = liteLoop num resp.items [] := by cases hrs; rfl
        subst this
        rcases liteLoop_mem num resp.items [] r hr with h | h
        · cases h
        · exact h

/-- A redirect-wrapper link pointing back through the engine's own domain. -/
def wrapperHref : Str :=
  "//duckduckgo.com/l/?uddg=https%3A%2F%2Fexample.org%2Ffoo".toList

/-- A lightweight-markup response listing one wrapped item. -/
def liteRespEx : HttpResp := ⟨200, true, "OK".toList, [⟨"T".toList, some wrapperHref, []⟩]⟩

/-- **C7** (counterexample).  The claim states the lightweight-markup path
has the same extraction contract as the full-markup path (decode wrappers,
exclude own-domain links).  It does not (`src/lib/search.js` lines 41–50):
a wrapped own-domain `href` has a decodable `uddg=` capture whose decoded
destination is `https://example.org/foo`, yet the lite path returns the raw
wrapper verbatim — a link still containing `duckduckgo.com`, not excluded
and not decoded. -/
theorem ddg_lite_extraction_claim_false :
    searchDuckDuckGoLite (Except.ok liteRespEx) 5
      = Except.ok [⟨"T".toList, wrapperHref, []⟩] ∧
    findUddg wrapperHref = some "https%3A%2F%2Fexample.org%2Ffoo".toList ∧
    pctDecode "https%3A%2F%2Fexample.org%2Ffoo".toList = "https://example.org/foo".toList ∧
    strHas wrapperHref "duckduckgo.com".toList = true ∧
    wrapperHref ≠ "https://example.org/foo".toList := by
  refine ⟨rfl, ?_, ?_, ?_, ?_⟩
  · decide
  · decide
  · decide
  · decide

/-- Witness for `ddg_extraction_contract`: the wrapper link decodes to its
true destination and a direct link is kept verbatim. -/
theorem ddg_extraction_contract_witness :
    resolveLink wrapperHref = pctDecode "https%3A%2F%2Fexample.org%2Ffoo".toList ∧
    resolveLink "https://example.org/x".toList = "https://example.org/x".toList :=
  ⟨(ddg_extraction_contract [] 5).1 wrapperHref
      "https%3A%2F%2Fexample.org%2Ffoo".toList (by decide),
   (ddg_extraction_contract [] 5).2.1 "https://example.org/x".toList (by decide)⟩

/-!
## Daemon command queue — `src/lib/daemon.js`

`runWebBrowseDaemon` keeps `let queue = Promise.resolve()` and
`enqueue = (fn) => { queue = queue.then(fn, fn); return queue; }`
(lines 56–61); each `POST /command` appends its whole handler to the queue
(lines 89–138).  Under JavaScript promise semantics, `then(fn, fn)` runs
`fn` only once the previous task has settled — fulfilled *or* rejected — so
the chain executes the enqueued handlers sequentially in append order.  The
embedding runs the queued commands in that order over the shared session
state `σ`; each handler returns the updated state together with its response
(`ok` = the 200 `{success:true}` envelope, `error` = the per-task `catch`
turning a thrown error into the 400 `{success:false}` envelope, lines
131–135).  The run also emits a begin/finish event trace from which
concurrency is measured, as the specification's instrumentation suggests. -/

/-- A queued command: its id (submission order) and its handler over the
shared browser-session state. -/
structure DaemonCmd (σ δ : Type) where
  cid : Nat
  handler : σ → σ × Except Str δ

/-- Begin/finish events of command execution against the shared session. -/
inductive QEv where
  | begin (i : Nat)
  | finish (i : Nat)
deriving DecidableEq

/-- Runs the promise-chained FIFO queue: final state, responses in
completion order, and the begin/finish event trace. -/
def runQueue {σ δ : Type} : List (DaemonCmd σ δ) → σ →
    σ × List (Nat × Except Str δ) × List QEv
  | [], s => (s, [], [])
  | c :: rest, s =>
    let step := c.handler s
    let next := runQueue rest step.1
    (next.1, (c.cid, step.2) :: next.2.1,
      QEv.begin c.cid :: QEv.finish c.cid :: next.2.2)

/-- Folds a trace tracking the number of currently running operations and
the maximum observed. -/
def concAux : List QEv → Nat → Nat → Nat
  | [], _, m => m
  | QEv.begin _ :: tr, cur, m => concAux tr (cur + 1) (Nat.max m (cur + 1))
  | QEv.finish _ :: tr, cur, m => concAux tr (cur - 1) m

/-- The maximum number of simultaneously running operations in a trace. -/
def maxConcurrent (tr : List QEv) : Nat := concAux tr 0 0

/-- The counter over a queue trace never exceeds `max m 1` when starting
idle with accumulated maximum `m`. -/
theorem concAux_runQueue {σ δ : Type} (cmds : List (DaemonCmd σ δ)) :
    ∀ (s : σ) (m : Nat),
      concAux (runQueue cmds s).2.2 0 m = if cmds.isEmpty then m else Nat.max m 1 := by
  induction cmds with
  | nil => intro s m; rfl
  | cons c rest ih =>
    intro s m
    simp only [runQueue, concAux, List.isEmpty_cons]
    rw [ih]
    by_cases h : rest.isEmpty
    · simp [h]
    · simp [h]

/-- **C2** (confirmed).  Commands submitted to the daemon queue run strictly
one at a time in submission (FIFO) order: every command is answered, the
responses complete in submission order, the execution trace is exactly
begin/finish per command in submission order, and the number of
simultaneously running browser-session operations never exceeds 1.  A
handler that throws yields an error response (the per-task catch) and the
next queued command still runs. -/
theorem daemon_queue_serialization {σ δ : Type} (cmds : List (DaemonCmd σ δ)) (s : σ) :
    ((runQueue cmds s).2.1.map Prod.fst = cmds.map DaemonCmd.cid)
    ∧ ((runQueue cmds s).2.2
        = cmds.flatMap (fun c => [QEv.begin c.cid, QEv.finish c.cid]))
    ∧ maxConcurrent (runQueue cmds s).2.2 ≤ 1 := by
  refine ⟨?_, ?_, ?_⟩
  · induction cmds generalizing s with
    | nil => rfl
    | cons c rest ih => simp [runQueue, ih]
  · induction cmds generalizing s with
    | nil => rfl
    | cons c rest ih => simp [runQueue, ih]
  · rw [maxConcurrent, concAux_runQueue]
    by_cases h : cmds.isEmpty
    · simp [h]
    · simp [h]

/-!
## Fetch operations — `src/unnamed/part_003` (`fetchUrlFromContext`) and
`src/lib/http-fetch.js` (`fetchUrlViaHttp`)

The browser steps (newPage/goto/bot-protection wait/content) and the plain
HTTP request are collaborators; each fetch function is embedded over the
outcome of those steps.  A rejection carries whether it was an abort
(`err.name === "AbortError"`) and its message (collapsing the source's
`err?.cause?.message || err?.message || String(err)` chain to the resolved
message). -/

/-- The title/content pair `parseHtmlToContent` produces. -/
structure ParsedPage where
  title : Str
  content : Str
deriving DecidableEq

/-- The `{url, title, content, error}` result of a fetch operation. -/
structure FetchResult where
  url : Str
  title : Str
  content : Str
  error : Option Str
deriving DecidableEq

/-- A JavaScript rejection: abort flag and message. -/
structure JsError where
  isAbort : Bool
  message : Str
deriving DecidableEq

/-- Error-message resolution of the fetch catch blocks. -/
def fetchErrMessage (timeoutText : Str) (e : JsError) : Str :=
  if e.isAbort then timeoutText else e.message

/-- `fetchUrlFromContext` of `src/unnamed/part_003` (lines 5–51): `steps` is
the outcome of the browser phase (newPage, goto, bot-protection wait, page
content, parse); on success the parsed page is returned with `error: null`,
on rejection the catch returns empty title/content with the message (the
debug dump is diagnostics-only and ignored). -/
def fetchUrlFromContext (url : Str) (steps : Except JsError ParsedPage) : FetchResult :=
  match steps with
  | Except.ok p => ⟨url, p.title, p.content, none⟩
  | Except.error e => ⟨url, [], [], some (fetchErrMessage "Timeout after 45s".toList e)⟩

/-- A plain-HTTP response head as `fetchUrlViaHttp` inspects it. -/
structure HttpPageResp where
  ok : Bool
  status : Int
  statusText : Str
  contentType : Option Str
deriving DecidableEq

/-- JS `x || ""` for a nullable header value. -/
def getOrEmpty : Option Str → Str
  | some c => c
  | none => []

/-- `fetchUrlViaHttp` of `src/lib/http-fetch.js` (lines 6–41): a rejected
request is caught (abort = the 15s timeout); a non-ok status or a
non-HTML content type throws internally and is caught into an error
result; otherwise the parsed page (`parsed`, from the collaborator chain
`response.text()` → `parseHtmlToContent`) is returned with `error: null`. -/
def fetchUrlViaHttp (url : Str) (resp : Except JsError HttpPageResp)
    (parsed : ParsedPage) : FetchResult :=
  match resp with
  | Except.error e => ⟨url, [], [], some (fetchErrMessage "Timeout after 15s".toList e)⟩
  | Except.ok r =>
    if r.ok = false then
      ⟨url, [], [], some ("HTTP ".toList ++ (toString r.status).toList ++ ' ' :: r.statusText)⟩
    else
      if strHas (getOrEmpty r.contentType) "text/html".toList = false
          ∧ strHas (getOrEmpty r.contentType) "application/xhtml".toList = false
      then ⟨url, [], [], some ("Not HTML: ".toList ++ getOrEmpty r.contentType)⟩
      else ⟨url, parsed.title, parsed.content, none⟩

/-- **C8** (confirmed).  Every `FetchResult` produced by either fetch path
satisfies the shape contract: either `error` is `none` and title/content are
the extracted page data, or `error` carries a message string and title and
content are both the empty string; `content` is always a string (never
null/undefined), and every failure is converted into such a result rather
than thrown — both functions are total over all step outcomes. -/
theorem fetchResult_shape (url : Str) (steps : Except JsError ParsedPage)
    (resp : Except JsError HttpPageResp) (parsed : ParsedPage) :
    ((∃ p, steps = Except.ok p ∧
        fetchUrlFromContext url steps = ⟨url, p.title, p.content, none⟩)
      ∨ (∃ m, fetchUrlFromContext url steps = ⟨url, [], [], some m⟩))
    ∧ ((fetchUrlViaHttp url resp parsed = ⟨url, parsed.title, parsed.content, none⟩)
      ∨ (∃ m, fetchUrlViaHttp url resp parsed = ⟨url, [], [], some m⟩)) := by
  constructor
  · cases steps with
    | ok p => exact Or.inl ⟨p, rfl, rfl⟩
    | error e => exact Or.inr ⟨fetchErrMessage "Timeout after 45s".toList e, rfl⟩
  · cases resp with
    | error e =>
      exact Or.inr ⟨fetchErrMessage "Timeout after 15s".toList e, rfl⟩
    | ok r =>
      by_cases hok : r.ok = false
      · refine Or.inr ⟨"HTTP ".toList ++ (toString r.status).toList ++ ' ' :: r.statusText, ?_⟩
        unfold fetchUrlViaHttp
        simp only []
        rw [if_pos hok]
      · by_cases hct : strHas (getOrEmpty r.contentType) "text/html".toList = false
            ∧ strHas (getOrEmpty r.contentType) "application/xhtml".toList = false
        · refine Or.inr ⟨"Not HTML: ".toList ++ getOrEmpty r.contentType, ?_⟩
          unfold fetchUrlViaHttp
          simp only []
          rw [if_neg hok, if_pos hct]
        · refine Or.inl ?_
          unfold fetchUrlViaHttp
          simp only []
          rw [if_neg hok, if_neg hct]

/-!
## Port negotiation — `src/lib/cdp.js` lines 42–86

`isPortAvailable` validates the port range and then attempts a loopback
bind; the bind outcome is the collaborator oracle `bindFree` (assumed stable
across the scan, as the source assumes).  `getEphemeralPort` binds port 0
and reports the OS-assigned port, or rejects on a bind failure; its outcome
is the oracle `eph`. -/

/-- `isPortAvailable` of `src/lib/cdp.js` (lines 62–75): integer range check
(the model's ports are integers by construction), then the bind attempt. -/
def isPortAvailable (bindFree : Int → Bool) (port : Int) : Bool :=
  if port ≤ 0 ∨ 65535 < port then false else bindFree port

/-- The `offset` loop of `chooseAvailablePort` (lines 80–83), scanning
`fuel` consecutive candidates from `start` upward. -/
def scanPorts (bindFree : Int → Bool) : Int → Nat → Option Int
  | _, 0 => none
  | start, fuel + 1 =>
    if isPortAvailable bindFree start then some start
    else scanPorts bindFree (start + 1) fuel

/-- `chooseAvailablePort` of `src/lib/cdp.js` (lines 77–86): the preferred
port if free, else the first free of the next 25, else the OS-assigned
ephemeral port (whose bind can itself reject). -/
def chooseAvailablePort (bindFree : Int → Bool) (eph : Except Str Int)
    (preferred : Int) : Except Str Int :=
  if isPortAvailable bindFree preferred then Except.ok preferred
  else
    match scanPorts bindFree (preferred + 1) 25 with
    | some p => Except.ok p
    | none => eph

/-- A successful scan returns the first available candidate in its window. -/
theorem scanPorts_some (bindFree : Int → Bool) :
    ∀ (fuel : Nat) (start p : Int), scanPorts bindFree start fuel = some p →
      isPortAvailable bindFree p = true ∧ start ≤ p ∧ p < start + fuel ∧
        ∀ q, start ≤ q → q < p → isPortAvailable bindFree q = false := by
  intro fuel
  induction fuel with
  | zero => intro start p h; cases h
  | succ n ih =>
    intro start p h
    unfold scanPorts at h
    by_cases hc : isPortAvailable bindFree start = true
    · rw [if_pos hc] at h
      have : p = start := by cases h; rfl
      subst this
      exact ⟨hc, le_refl p, by omega, fun q hq1 hq2 => absurd hq1 (by omega)⟩
    · rw [if_neg hc] at h
      obtain ⟨ha, h1, h2, hmin⟩ := ih (start + 1) p h
      refine ⟨ha, by omega, by omega, ?_⟩
      intro q hq1 hq2
      rcases eq_or_lt_of_le hq1 with rfl | hlt
      · simpa using hc
      · exact hmin q (by omega) hq2

/-- A failed scan means no candidate in its window is available. -/
theorem scanPorts_none (bindFree : Int → Bool) :
    ∀ (fuel : Nat) (start : Int), scanPorts bindFree start fuel = none →
      ∀ q, start ≤ q → q < start + fuel → isPortAvailable bindFree q = false := by
  intro fuel
  induction fuel with
  | zero => intro start _ q hq1 hq2; omega
  | succ n ih =>
    intro start h q hq1 hq2
    unfold scanPorts at h
    by_cases hc : isPortAvailable bindFree start = true
    · rw [if_pos hc] at h; cases h
    · rw [if_neg hc] at h
      rcases eq_or_lt_of_le hq1 with rfl | hlt
      · simpa using hc
      · exact ih (start + 1) h q (by omega) (by omega)

/-- **C9** (confirmed).  `chooseAvailablePort` returns the preferred port
when it is free; otherwise the first free port among `preferred+1` …
`preferred+25` in ascending order; otherwise the OS-assigned ephemeral-port
outcome.  Whenever it returns a port other than via the ephemeral fallback,
that port is available (never a port known to be occupied), and it fails
only by propagating the ephemeral bind failure, never with an error of its
own. -/
theorem chooseAvailablePort_spec (bindFree : Int → Bool) (eph : Except Str Int)
    (preferred : Int) :
    (isPortAvailable bindFree preferred = true →
      chooseAvailablePort bindFree eph preferred = Except.ok preferred)
    ∧ (isPortAvailable bindFree preferred = false →
        ∀ p, scanPorts bindFree (preferred + 1) 25 = some p →
          chooseAvailablePort bindFree eph preferred = Except.ok p ∧
            isPortAvailable bindFree p = true ∧
            preferred + 1 ≤ p ∧ p ≤ preferred + 25 ∧
            ∀ q, preferred + 1 ≤ q → q < p → isPortAvailable bindFree q = false)
    ∧ ((∀ q, preferred ≤ q → q ≤ preferred + 25 → isPortAvailable bindFree q = false) →
        chooseAvailablePort bindFree eph preferred = eph)
    ∧ (∀ p, chooseAvailablePort bindFree eph preferred = Except.ok p →
        isPortAvailable bindFree p = true ∨ eph = Except.ok p)
    ∧ (∀ p, eph = Except.ok p →
        ∃ q, chooseAvailablePort bindFree eph preferred = Except.ok q) := by
  refine ⟨?_, ?_, ?_, ?_, ?_⟩
  · intro h
    unfold chooseAvailablePort
    rw [if_pos h]
  · intro h p hscan
    obtain ⟨ha, h1, h2, hmin⟩ := scanPorts_some bindFree 25 (preferred + 1) p hscan
    refine ⟨?_, ha, h1, by omega, hmin⟩
    unfold chooseAvailablePort
    rw [if_neg (by simp [h]), hscan]
  · intro h
    have hp : isPortAvailable bindFree preferred = false :=
      h preferred (le_refl _) (by omega)
    cases hscan : scanPorts bindFree (preferred + 1) 25 with
    | some p =>
      obtain ⟨ha, h1, h2, -⟩ := scanPorts_some bindFree 25 (preferred + 1) p hscan
      have := h p (by omega) (by omega)
      rw [this] at ha
      cases ha
    | none =>
      unfold chooseAvailablePort
      rw [if_neg (by simp [hp]), hscan]
  · intro p hp
    unfold chooseAvailablePort at hp
    by_cases hpref : isPortAvailable bindFree preferred = true
    · rw [if_pos hpref] at hp
      have : p = preferred := by cases hp; rfl
      subst this
      exact Or.inl hpref
    · rw [if_neg hpref] at hp
      cases hscan : scanPorts bindFree (preferred + 1) 25 with
      | some q =>
        rw [hscan] at hp
        have : p = q := by cases hp; rfl
        subst this
        exact Or.inl (scanPorts_some bindFree 25 (preferred + 1) p hscan).1
      | none =>
        rw [hscan] at hp
        simp only [] at hp
        exact Or.inr hp
  · intro p hp
    unfold chooseAvailablePort
    by_cases hpref : isPortAvailable bindFree preferred = true
    · rw [if_pos hpref]
      exact ⟨preferred, rfl⟩
    · rw [if_neg hpref]
      cases hscan : scanPorts bindFree (preferred + 1) 25 with
      | some q => exact ⟨q, rfl⟩
      | none => exact ⟨p, hp⟩

/-- An availability oracle for the witness: only port 9226 binds. -/
def bindFreeEx (p : Int) : Bool := p == 9226

/-- Witness for `chooseAvailablePort_spec`: preferred port 9223 occupied,
9226 is the first free port in the scan window and is returned. -/
theorem chooseAvailablePort_spec_witness :
    chooseAvailablePort bindFreeEx (Except.ok 50000) 9223 = Except.ok 9226 :=
  ((chooseAvailablePort_spec bindFreeEx (Except.ok 50000) 9223).2.1
    (by decide) 9226 (by decide)).1

/-!
## Daemon search-command payload handling — `src/lib/daemon.js` lines 108–122
-/

/-- A JSON-payload field value as the daemon sees it: absent (`undefined`),
null, a finite number (integral in this model; the daemon passes finite
numbers through unchanged), `NaN`, an infinity, a boolean, or a string. -/
inductive JsValue where
  | undef
  | nullV
  | finiteNum (q : Int)
  | nanV
  | infV
  | boolV (b : Bool)
  | strV (s : Str)
deriving DecidableEq

/-- JS `Number.isFinite`: true only for finite values of number type (no
coercion). -/
def numberIsFinite : JsValue → Bool
  | JsValue.finiteNum _ => true
  | _ => false

/-- JS truthiness of a payload field (`!payload.query`):
`undefined`/`null`/`false`/`0`/`NaN`/`""` are falsy. -/
def jsTruthy : JsValue → Bool
  | JsValue.undef => false
  | JsValue.nullV => false
  | JsValue.finiteNum q => q != 0
  | JsValue.nanV => false
  | JsValue.infV => true
  | JsValue.boolV b => b
  | JsValue.strV s => s.isEmpty = false

/-- The payload of a `search` command. -/
structure SearchPayload where
  query : JsValue
  numResults : JsValue

/-- The search-orchestrator invocation the daemon builds. -/
structure SearchInvocation where
  query : JsValue
  numResults : Int
deriving DecidableEq

/-- The `search` branch of the daemon command dispatcher
(`src/lib/daemon.js` lines 108–122): a falsy `payload.query` throws
(caught into a 400 response); otherwise the requested count is
`payload.numResults` when `Number.isFinite` accepts it and `5` otherwise,
and the orchestrator is invoked. -/
def daemonSearchCommand (p : SearchPayload) : Except Str SearchInvocation :=
  if jsTruthy p.query = false then Except.error "search requires payload.query".toList
  else Except.ok ⟨p.query,
    match p.numResults with
    | JsValue.finiteNum q => q
    | _ => 5⟩

/-- **C10** (confirmed).  For every accepted search command (truthy query)
whose `payload.numResults` is absent or not a finite number, the daemon
substitutes the default requested count 5 before invoking the search
orchestrator — the command is not rejected and the missing value is not
passed through. -/
theorem daemonSearchCommand_default_five (p : SearchPayload)
    (hq : jsTruthy p.query = true) (hn : numberIsFinite p.numResults = false) :
    daemonSearchCommand p = Except.ok ⟨p.query, 5⟩ := by
  obtain ⟨pq, pn⟩ := p
  unfold daemonSearchCommand
  rw [if_neg (by simp_all)]
  cases pn with
  | finiteNum q => simp [numberIsFinite] at hn
  | undef => rfl
  | nullV => rfl
  | nanV => rfl
  | infV => rfl
  | boolV b => rfl
  | strV s => rfl

/-- Witness for `daemonSearchCommand_default_five`: a search for `"rust"`
with no `numResults` field is dispatched with the default count 5. -/
theorem daemonSearchCommand_default_five_witness :
    daemonSearchCommand ⟨JsValue.strV "rust".toList, JsValue.undef⟩
      = Except.ok ⟨JsValue.strV "rust".toList, 5⟩ :=
  daemonSearchCommand_default_five ⟨JsValue.strV "rust".toList, JsValue.undef⟩
    (by decide) (by decide)
